import Mathlib

/-!
Verification of the `consistent-unordered-list-style` rule of the
`eslint-markdown` package.

The rule inspects every Markdown list item in document order and compares
the single marker character found at the item's start offset against an
expected marker determined by the configured `style` option
(`consistent`, `-`, `*`, `+`, or `sublist`).  The embedding below is a
direct translation of
`src/packages/eslint-markdown/src/rules/consistent-unordered-list-style.js`:
the visitor-with-ambient-state pattern of the source becomes an explicit
state-passing fold over the stream of visited list-item nodes, and the
mutable `firstMarker` variable becomes a threaded `Option String` value.
Markers are modelled as strings (the JavaScript code indexes into the
source text, obtaining a one-character string, and stores the raw `style`
string in `firstMarker` for non-`consistent` styles).
-/

namespace ConsistentUnorderedListStyle

/-- Shape of an ancestor node as inspected by `getListDepth`: the walk only
looks at `current.type === 'list'` and `current.ordered`, so an ancestor is
either a list node with an `ordered` flag or some other node. -/
inductive NodeInfo where
  | list (ordered : Bool)
  | other
  deriving DecidableEq

/-- What the rule reads about one visited `listItem` node: the `ordered`
flag of its parent list (`sourceCode.getParent(node).ordered`), the parent
chain above that parent list (walked by `getListDepth`, nearest ancestor
first), and the node's start offset (`sourceCode.getRange(node)[0]`). -/
structure ListItem where
  parentOrdered : Bool
  parentAncestors : List NodeInfo
  startOffset : Nat
  deriving DecidableEq

/-- One reported problem, as assembled by the `context.report` call of the
source (lines 139-157): the location passed to `getLocFromIndex` is kept in
source-offset units, `dataStyle` is the `data: \x7b style: expectedMarker \x7d`
payload, and the fix is `fixer.replaceTextRange([start, start+1], expected)`. -/
structure Violation where
  locStart : Nat
  locEnd : Nat
  messageId : String
  dataStyle : String
  fixRangeStart : Nat
  fixRangeEnd : Nat
  fixText : String
  deriving DecidableEq

/-- Source line 27: `const SUBLIST_MARKERS = ['*', '+', '-'];`. -/
def SUBLIST_MARKERS : List String := ["*", "+", "-"]

/-- Character of the source text at an offset.  JavaScript string indexing
out of bounds yields `undefined`; the spec declares an out-of-bounds offset
a contract violation of the host, so theorems that depend on the read
carry an in-bounds hypothesis making the default irrelevant. -/
def charAt (text : List Char) (i : Nat) : Char := text.getD i (Char.ofNat 0)

/-- The one-character string `sourceCode.text[nodeStartOffset]` (line 121). -/
def charAtS (text : List Char) (i : Nat) : String := String.singleton (charAt text i)

/-- Source lines 86-99: walk the parent chain of a list node and count the
ancestors that are lists with `ordered === false`; other ancestors are
passed over without stopping the walk. -/
def getListDepth : List NodeInfo → Nat
  | [] => 0
  | current :: rest =>
    (if current = NodeInfo.list false then 1 else 0) + getListDepth rest

/-- Source lines 106-108: `return SUBLIST_MARKERS[depth % 3];`.  The index
`depth % 3` is always below the length 3, so the default is never used. -/
def getSublistMarker (depth : Nat) : String := SUBLIST_MARKERS.getD (depth % 3) "*"

/-- The expected-marker computation of `listItem` (source lines 123-136),
returning the updated `firstMarker` together with `expectedMarker`.  The
branches are evaluated in source order: `sublist`, then `consistent`
(which locks `firstMarker` to the current marker when it is still null),
then the fixed-style fallback `expectedMarker = style`. -/
def markerPolicy (style : String) (firstMarker : Option String) (currentMarker : String)
    (parentAncestors : List NodeInfo) : Option String × String :=
  if style = "sublist" then
    (firstMarker, getSublistMarker (getListDepth parentAncestors))
  else if style = "consistent" then
    match firstMarker with
    | none => (some currentMarker, currentMarker)
    | some m => (some m, m)
  else
    (firstMarker, style)

/-- The report object built at source lines 139-157. -/
def report (nodeStartOffset : Nat) (expectedMarker : String) : Violation :=
  { locStart := nodeStartOffset
    locEnd := nodeStartOffset + 1
    messageId := "style"
    dataStyle := expectedMarker
    fixRangeStart := nodeStartOffset
    fixRangeEnd := nodeStartOffset + 1
    fixText := expectedMarker }

/-- The `listItem` visitor handler (source lines 112-159) as a function of
the threaded `firstMarker` state: ordered parents are skipped before any
policy logic, otherwise the observed marker is compared with the policy's
expected marker and at most one violation is produced. -/
def listItem (style : String) (text : List Char) (node : ListItem)
    (firstMarker : Option String) : Option String × Option Violation :=
  if node.parentOrdered then
    (firstMarker, none)
  else
    let nodeStartOffset := node.startOffset
    let currentMarker := charAtS text nodeStartOffset
    let p := markerPolicy style firstMarker currentMarker node.parentAncestors
    if currentMarker ≠ p.2 then
      (p.1, some (report nodeStartOffset p.2))
    else
      (p.1, none)

/-- Source line 79: `let firstMarker = style === 'consistent' ? null : style;`. -/
def initFirstMarker (style : String) : Option String :=
  if style = "consistent" then none else some style

/-- One lint run over the stream of visited list-item nodes (the host calls
the handler once per node in document order), threading the `firstMarker`
state explicitly and collecting the reported violations in order. -/
def runRuleFrom (style : String) (text : List Char) (firstMarker : Option String) :
    List ListItem → Option String × List Violation
  | [] => (firstMarker, [])
  | node :: rest =>
    let s := listItem style text node firstMarker
    let r := runRuleFrom style text s.1 rest
    (r.1, s.2.toList ++ r.2)

/-- A full run: the state is created fresh by `create` (line 79), so no
value carries over from a previous run. -/
def runRule (style : String) (text : List Char) (items : List ListItem) :
    Option String × List Violation :=
  runRuleFrom style text (initFirstMarker style) items

/-- Application of one fix, `fixer.replaceTextRange([start, end], text)`:
splice the replacement string over the half-open range. -/
def applyFix (text : List Char) (v : Violation) : List Char :=
  text.take v.fixRangeStart ++ v.fixText.data ++ text.drop v.fixRangeEnd

/-- Apply all produced fixes in order. -/
def applyFixes (text : List Char) (vs : List Violation) : List Char :=
  vs.foldl applyFix text

/-- The schema enumeration of allowed styles (source line 52). -/
def validStyles : List String := ["consistent", "-", "*", "+", "sublist"]

/-- Source line 66: the message template registered under the id `style`. -/
def styleMessage : String := "List marker style should be `\x7b\x7b style \x7d\x7d`."

/-- The placeholder `\x7b\x7b style \x7d\x7d` occurring in the template. -/
def placeholderChars : List Char :=
  ['\x7b', '\x7b', ' ', 's', 't', 'y', 'l', 'e', ' ', '\x7d', '\x7d']

/-- Host-side message interpolation: substitute the reported `data.style`
value for the placeholder of the template.  The rule's template contains
the placeholder exactly once, so substituting the first occurrence renders
the message the host displays. -/
def interpolate (template : List Char) (value : List Char) : List Char :=
  match template with
  | [] => []
  | c :: rest =>
    if (c :: rest).take 11 = placeholderChars then
      value ++ rest.drop 10
    else
      c :: interpolate rest value

/-- Specification-level description of a run whose expected marker is a
pure function of the node: the violations are exactly the unordered items
whose observed marker differs from the expected one, each reported with
the expected marker at the item's start offset. -/
def detViolations (text : List Char) (expected : ListItem → String)
    (items : List ListItem) : List Violation :=
  items.filterMap fun n =>
    if n.parentOrdered then none
    else if charAtS text n.startOffset ≠ expected n then
      some (report n.startOffset (expected n))
    else none

/-- Character form of the `sublist` cycle: depth `d` expects the character
`cycle[d % 3]` with `cycle = ['*', '+', '-']`. -/
def sublistChar (depth : Nat) : Char :=
  if depth % 3 = 0 then '*' else if depth % 3 = 1 then '+' else '-'

/-- Auxiliary model of fix application as a sequence of single-character
writes `(offset, character)`. -/
def setWrites (text : List Char) (ws : List (Nat × Char)) : List Char :=
  ws.foldl (fun t w => t.set w.1 w.2) text

/-- The single-character write described by a violation's fix. -/
def toWrite (v : Violation) : Nat × Char :=
  (v.fixRangeStart, v.fixText.data.getD 0 (Char.ofNat 0))

/-- Expected marker of one visited unordered node, read off the policy. -/
def expectedMarkerOf (style : String) (text : List Char) (firstMarker : Option String)
    (n : ListItem) : String :=
  (markerPolicy style firstMarker (charAtS text n.startOffset) n.parentAncestors).2

/-! Helper lemmas. -/

theorem charAtS_eq (text : List Char) (i : Nat) :
    charAtS text i = String.singleton (charAt text i) := rfl

theorem data_singleton (c : Char) : (String.singleton c).data = [c] := rfl

theorem singleton_inj {a b : Char} : String.singleton a = String.singleton b ↔ a = b := by
  constructor
  · intro h
    have h2 := congrArg String.data h
    simpa [String.singleton] using h2
  · intro h
    rw [h]

theorem listItem_ordered (style : String) (text : List Char) (node : ListItem)
    (fm : Option String) (h : node.parentOrdered = true) :
    listItem style text node fm = (fm, none) := by
  simp [listItem, h]

theorem detViolations_nil (text : List Char) (E : ListItem → String) :
    detViolations text E [] = [] := rfl

theorem detViolations_cons_ordered (text : List Char) (E : ListItem → String)
    (n : ListItem) (rest : List ListItem) (h : n.parentOrdered = true) :
    detViolations text E (n :: rest) = detViolations text E rest := by
  simp [detViolations, List.filterMap_cons, h]

theorem detViolations_cons_unordered (text : List Char) (E : ListItem → String)
    (n : ListItem) (rest : List ListItem) (h : n.parentOrdered = false) :
    detViolations text E (n :: rest) =
      (if charAtS text n.startOffset ≠ E n then [report n.startOffset (E n)] else []) ++
        detViolations text E rest := by
  by_cases hc : charAtS text n.startOffset = E n <;>
    simp [detViolations, List.filterMap_cons, h, hc]

theorem run_all_ordered (style : String) (text : List Char) (fm : Option String)
    (items : List ListItem) (h : ∀ n ∈ items, n.parentOrdered = true) :
    runRuleFrom style text fm items = (fm, []) := by
  induction items with
  | nil => rfl
  | cons n rest ih =>
    rw [runRuleFrom, listItem_ordered _ _ _ _ (h n (List.mem_cons_self _ _)),
      ih fun k hk => h k (List.mem_cons_of_mem _ hk)]
    simp

theorem run_skip_ordered (style : String) (text : List Char) (fm : Option String)
    (pre rest : List ListItem) (h : ∀ p ∈ pre, p.parentOrdered = true) :
    runRuleFrom style text fm (pre ++ rest) = runRuleFrom style text fm rest := by
  induction pre with
  | nil => rfl
  | cons n pre ih =>
    rw [List.cons_append, runRuleFrom, listItem_ordered _ _ _ _ (h n (List.mem_cons_self _ _)),
      ih fun k hk => h k (List.mem_cons_of_mem _ hk)]
    simp

theorem run_else (style : String) (h1 : style ≠ "sublist") (h2 : style ≠ "consistent")
    (text : List Char) (fm : Option String) (items : List ListItem) :
    runRuleFrom style text fm items = (fm, detViolations text (fun _ => style) items) := by
  induction items with
  | nil => rfl
  | cons n rest ih =>
    by_cases hn : n.parentOrdered
    · rw [runRuleFrom, listItem_ordered _ _ _ _ hn, ih,
        detViolations_cons_ordered _ _ _ _ hn]
      simp
    · have hn2 : n.parentOrdered = false := by simpa using hn
      rw [runRuleFrom]
      by_cases hc : charAtS text n.startOffset = style <;>
        simp [listItem, markerPolicy, hn2, h1, h2, hc, ih,
          detViolations_cons_unordered _ _ _ _ hn2]

theorem run_sublist (text : List Char) (fm : Option String) (items : List ListItem) :
    runRuleFrom "sublist" text fm items =
      (fm, detViolations text
        (fun n => getSublistMarker (getListDepth n.parentAncestors)) items) := by
  induction items with
  | nil => rfl
  | cons n rest ih =>
    by_cases hn : n.parentOrdered
    · rw [runRuleFrom, listItem_ordered _ _ _ _ hn, ih,
        detViolations_cons_ordered _ _ _ _ hn]
      simp
    · have hn2 : n.parentOrdered = false := by simpa using hn
      rw [runRuleFrom]
      by_cases hc : charAtS text n.startOffset = getSublistMarker (getListDepth n.parentAncestors) <;>
        simp [listItem, markerPolicy, hn2, hc, ih,
          detViolations_cons_unordered _ _ _ _ hn2]

theorem run_consistent_locked (text : List Char) (m : String) (items : List ListItem) :
    runRuleFrom "consistent" text (some m) items =
      (some m, detViolations text (fun _ => m) items) := by
  induction items with
  | nil => rfl
  | cons n rest ih =>
    by_cases hn : n.parentOrdered
    · rw [runRuleFrom, listItem_ordered _ _ _ _ hn, ih,
        detViolations_cons_ordered _ _ _ _ hn]
      simp
    · have hn2 : n.parentOrdered = false := by simpa using hn
      rw [runRuleFrom]
      by_cases hc : charAtS text n.startOffset = m <;>
        simp [listItem, markerPolicy, hn2, hc, ih,
          detViolations_cons_unordered _ _ _ _ hn2,
          show ("consistent" : String) ≠ "sublist" by decide]

theorem run_consistent_first (text : List Char) (pre : List ListItem) (n : ListItem)
    (post : List ListItem) (hpre : ∀ p ∈ pre, p.parentOrdered = true)
    (hn : n.parentOrdered = false) :
    runRuleFrom "consistent" text none (pre ++ n :: post) =
      (some (charAtS text n.startOffset),
        detViolations text (fun _ => charAtS text n.startOffset) post) := by
  rw [run_skip_ordered _ _ _ _ _ hpre, runRuleFrom]
  simp [listItem, markerPolicy, hn, show ("consistent" : String) ≠ "sublist" by decide,
    run_consistent_locked]

theorem charAt_set_self (text : List Char) (i : Nat) (c : Char) (h : i < text.length) :
    charAt (text.set i c) i = c := by
  simp [charAt, List.getD_eq_getElem?_getD, List.getElem?_set_self h]

theorem charAt_set_ne (text : List Char) (i j : Nat) (c : Char) (h : i ≠ j) :
    charAt (text.set i c) j = charAt text j := by
  simp [charAt, List.getD_eq_getElem?_getD, List.getElem?_set_ne h]

theorem length_setWrites (ws : List (Nat × Char)) (text : List Char) :
    (setWrites text ws).length = text.length := by
  induction ws generalizing text with
  | nil => rfl
  | cons w ws ih =>
    show (setWrites (text.set w.1 w.2) ws).length = text.length
    rw [ih, List.length_set]

theorem charAt_setWrites_notin (ws : List (Nat × Char)) (text : List Char) (j : Nat)
    (h : ∀ w ∈ ws, w.1 ≠ j) :
    charAt (setWrites text ws) j = charAt text j := by
  induction ws generalizing text with
  | nil => rfl
  | cons w ws ih =>
    show charAt (setWrites (text.set w.1 w.2) ws) j = charAt text j
    rw [ih _ fun k hk => h k (List.mem_cons_of_mem _ hk)]
    exact charAt_set_ne _ _ _ _ (h w (List.mem_cons_self _ _))

theorem charAt_setWrites_once (ws₁ ws₂ : List (Nat × Char)) (text : List Char)
    (j : Nat) (c : Char) (hj : j < text.length) (h2 : ∀ w ∈ ws₂, w.1 ≠ j) :
    charAt (setWrites text (ws₁ ++ (j, c) :: ws₂)) j = c := by
  have hstep : setWrites text (ws₁ ++ (j, c) :: ws₂) =
      setWrites ((setWrites text ws₁).set j c) ws₂ := by
    simp [setWrites, List.foldl_append]
  rw [hstep, charAt_setWrites_notin ws₂ _ j h2, charAt_set_self]
  rw [length_setWrites]
  exact hj

theorem applyFix_unit (text : List Char) (v : Violation) (c : Char)
    (h1 : v.fixRangeEnd = v.fixRangeStart + 1) (h2 : v.fixText.data = [c])
    (h3 : v.fixRangeStart < text.length) :
    applyFix text v = text.set v.fixRangeStart c := by
  rw [applyFix, h1, h2, List.set_eq_take_cons_drop c h3]
  simp

theorem applyFixes_eq_setWrites (vs : List Violation) (text : List Char)
    (h : ∀ v ∈ vs, v.fixRangeStart < text.length ∧ v.fixRangeEnd = v.fixRangeStart + 1 ∧
        ∃ c, v.fixText.data = [c]) :
    applyFixes text vs = setWrites text (vs.map toWrite) := by
  induction vs generalizing text with
  | nil => rfl
  | cons v vs ih =>
    obtain ⟨hb, he, c, hc⟩ := h v (List.mem_cons_self _ _)
    have hT : toWrite v = (v.fixRangeStart, c) := by simp [toWrite, hc]
    have hA : applyFix text v = text.set v.fixRangeStart c := applyFix_unit _ _ _ he hc hb
    show applyFixes (applyFix text v) vs = setWrites text (toWrite v :: vs.map toWrite)
    rw [hT]
    show applyFixes (applyFix text v) vs =
      setWrites (text.set v.fixRangeStart c) (vs.map toWrite)
    rw [hA, ih]
    intro v2 hv2
    obtain ⟨hb2, he2, hc2⟩ := h v2 (List.mem_cons_of_mem _ hv2)
    exact ⟨by rwa [List.length_set], he2, hc2⟩

theorem detViolations_eq_filter (text : List Char) (E : ListItem → String)
    (items : List ListItem) :
    detViolations text E items =
      (items.filter fun k => !k.parentOrdered).filterMap fun k =>
        if charAtS text k.startOffset ≠ E k then some (report k.startOffset (E k))
        else none := by
  induction items with
  | nil => rfl
  | cons n rest ih =>
    by_cases hn : n.parentOrdered
    · rw [detViolations_cons_ordered _ _ _ _ hn, ih]
      simp [List.filter_cons, hn]
    · have hn2 : n.parentOrdered = false := by simpa using hn
      rw [detViolations_cons_unordered _ _ _ _ hn2, ih]
      by_cases hc : charAtS text n.startOffset = E n <;>
        simp [List.filter_cons, hn2, List.filterMap_cons, hc]

theorem map_toWrite_detViolations (text : List Char) (e : ListItem → Char)
    (items : List ListItem) :
    (detViolations text (fun k => String.singleton (e k)) items).map toWrite =
      (items.filter fun k => !k.parentOrdered).filterMap fun k =>
        if charAtS text k.startOffset ≠ String.singleton (e k) then
          some (k.startOffset, e k)
        else none := by
  rw [detViolations_eq_filter, List.map_filterMap]
  congr 1
  funext k
  by_cases hc : charAtS text k.startOffset = String.singleton (e k) <;>
    simp [hc, toWrite, report, data_singleton]

theorem detViolations_fix_shape (text : List Char) (e : ListItem → Char)
    (items : List ListItem)
    (hb : ∀ k ∈ items, k.parentOrdered = false → k.startOffset < text.length) :
    ∀ v ∈ detViolations text (fun k => String.singleton (e k)) items,
      v.fixRangeStart < text.length ∧ v.fixRangeEnd = v.fixRangeStart + 1 ∧
        ∃ c, v.fixText.data = [c] := by
  intro v hv
  rw [detViolations_eq_filter] at hv
  obtain ⟨k, hk, hfk⟩ := List.mem_filterMap.1 hv
  obtain ⟨hk1, hk2⟩ := List.mem_filter.1 hk
  have hk3 : k.parentOrdered = false := by simpa using hk2
  by_cases hc : charAtS text k.startOffset = String.singleton (e k)
  · simp [hc] at hfk
  · simp only [hc, ne_eq, not_false_iff, if_true, Option.some.injEq] at hfk
    subst hfk
    exact ⟨hb k hk1 hk3, rfl, e k, by simp [report, data_singleton]⟩

theorem charAt_after_fixes (text : List Char) (e : ListItem → Char)
    (items : List ListItem)
    (hb : ∀ k ∈ items, k.parentOrdered = false → k.startOffset < text.length)
    (hp : (items.filter fun k => !k.parentOrdered).Pairwise
      fun a b => a.startOffset ≠ b.startOffset)
    (n : ListItem) (hmem : n ∈ items) (hord : n.parentOrdered = false) :
    charAt (applyFixes text (detViolations text (fun k => String.singleton (e k)) items))
      n.startOffset = e n := by
  rw [applyFixes_eq_setWrites _ _ (detViolations_fix_shape text e items hb),
    map_toWrite_detViolations]
  have hnL : n ∈ items.filter fun k => !k.parentOrdered :=
    List.mem_filter.2 ⟨hmem, by simp [hord]⟩
  obtain ⟨L₁, L₂, hL⟩ := List.append_of_mem hnL
  rw [hL, List.pairwise_append] at hp
  obtain ⟨hp1, hp2, hp12⟩ := hp
  rw [List.pairwise_cons] at hp2
  obtain ⟨hB0, _⟩ := hp2
  have hB : ∀ a ∈ L₂, a.startOffset ≠ n.startOffset := fun a ha => (hB0 a ha).symm
  have hA : ∀ a ∈ L₁, a.startOffset ≠ n.startOffset :=
    fun a ha => hp12 a ha n (List.mem_cons_self _ _)
  rw [hL, List.filterMap_append, List.filterMap_cons]
  have hmemw : ∀ (L : List ListItem), (∀ a ∈ L, a.startOffset ≠ n.startOffset) →
      ∀ w ∈ L.filterMap fun k =>
        if charAtS text k.startOffset ≠ String.singleton (e k) then
          some (k.startOffset, e k)
        else none, w.1 ≠ n.startOffset := by
    intro L hL2 w hw
    obtain ⟨k, hk, hfk⟩ := List.mem_filterMap.1 hw
    by_cases hc : charAtS text k.startOffset = String.singleton (e k)
    · simp [hc] at hfk
    · simp only [hc, ne_eq, not_false_iff, if_true, Option.some.injEq] at hfk
      rw [← hfk]
      exact hL2 k hk
  by_cases hcn : charAtS text n.startOffset = String.singleton (e n)
  · simp only [hcn, ne_eq, not_true_eq_false, if_false]
    rw [← List.filterMap_append]
    rw [charAt_setWrites_notin _ _ _ (hmemw (L₁ ++ L₂)
      (fun a ha => (List.mem_append.1 ha).elim (hA a) (hB a)))]
    rw [charAtS_eq] at hcn
    exact singleton_inj.1 hcn
  · simp only [hcn, ne_eq, not_false_iff, if_true]
    exact charAt_setWrites_once _ _ _ _ _ (hb n hmem hord) (hmemw L₂ hB)

theorem detViolations_nil_of_matches (text2 : List Char) (e : ListItem → Char)
    (items : List ListItem)
    (h : ∀ n ∈ items, n.parentOrdered = false → charAt text2 n.startOffset = e n) :
    detViolations text2 (fun k => String.singleton (e k)) items = [] := by
  rw [detViolations, List.filterMap_eq_nil_iff]
  intro n hn
  by_cases hord : n.parentOrdered
  · simp [hord]
  · have hord2 : n.parentOrdered = false := by simpa using hord
    have hc := h n hn hord2
    simp [hord2, charAtS, hc]

theorem getSublistMarker_singleton (d : Nat) :
    getSublistMarker d = String.singleton (sublistChar d) := by
  have h3 : d % 3 = 0 ∨ d % 3 = 1 ∨ d % 3 = 2 := by omega
  rcases h3 with h | h | h <;>
    simp [getSublistMarker, sublistChar, SUBLIST_MARKERS, h] <;> decide

theorem exists_first_unordered (items : List ListItem)
    (h : ¬ ∀ n ∈ items, n.parentOrdered = true) :
    ∃ pre n post, items = pre ++ n :: post ∧ (∀ p ∈ pre, p.parentOrdered = true) ∧
      n.parentOrdered = false := by
  induction items with
  | nil => exact absurd (by simp) h
  | cons k rest ih =>
    by_cases hk : k.parentOrdered
    · have h2 : ¬ ∀ n ∈ rest, n.parentOrdered = true := by
        intro hall
        exact h fun n hn => (List.mem_cons.1 hn).elim (fun he => he ▸ hk) (hall n)
      obtain ⟨pre, n, post, h1, h2, h3⟩ := ih h2
      exact ⟨k :: pre, n, post, by rw [h1]; rfl,
        fun p hp => (List.mem_cons.1 hp).elim (fun he => he ▸ hk) (h2 p), h3⟩
    · exact ⟨[], k, rest, rfl, by simp, by simpa using hk⟩

theorem run_middle_ordered (style : String) (text : List Char) (n : ListItem)
    (h : n.parentOrdered = true) :
    ∀ (pre : List ListItem) (fm : Option String) (post : List ListItem),
      runRuleFrom style text fm (pre ++ n :: post) =
        runRuleFrom style text fm (pre ++ post) := by
  intro pre
  induction pre with
  | nil =>
    intro fm post
    rw [List.nil_append, List.nil_append, runRuleFrom, listItem_ordered _ _ _ _ h]
    simp
  | cons p pre ih =>
    intro fm post
    simp only [List.cons_append, runRuleFrom, List.append_eq]
    rw [ih]

theorem listItem_unordered (style : String) (text : List Char) (n : ListItem)
    (fm : Option String) (h : n.parentOrdered = false) :
    listItem style text n fm =
      ((markerPolicy style fm (charAtS text n.startOffset) n.parentAncestors).1,
        if charAtS text n.startOffset =
            (markerPolicy style fm (charAtS text n.startOffset) n.parentAncestors).2 then
          none
        else
          some (report n.startOffset
            (markerPolicy style fm (charAtS text n.startOffset) n.parentAncestors).2)) := by
  have hb : (n.parentOrdered = true) = False := by simp [h]
  simp only [listItem, hb, if_false]
  by_cases hc : charAtS text n.startOffset =
      (markerPolicy style fm (charAtS text n.startOffset) n.parentAncestors).2
  · rw [if_neg (not_not_intro hc), if_pos hc]
  · rw [if_pos hc, if_neg hc]

theorem state_const_of_ne (style : String) (h : style ≠ "consistent") (text : List Char)
    (n : ListItem) (fm : Option String) :
    (listItem style text n fm).1 = fm := by
  by_cases hn : n.parentOrdered
  · rw [listItem_ordered _ _ _ _ hn]
  · have hn2 : n.parentOrdered = false := by simpa using hn
    by_cases hs : style = "sublist" <;>
      · simp only [listItem, hn2, Bool.false_eq_true, if_false, markerPolicy, hs, h,
          if_true, if_false, ne_eq, ite_not]
        split <;> rfl

theorem run_state_const_of_ne (style : String) (h : style ≠ "consistent")
    (text : List Char) (items : List ListItem) :
    ∀ fm, (runRuleFrom style text fm items).1 = fm := by
  induction items with
  | nil => intro fm; rfl
  | cons n rest ih =>
    intro fm
    simp only [runRuleFrom]
    rw [ih, state_const_of_ne _ h]

theorem mem_run_shape (style : String) (text : List Char) (items : List ListItem) :
    ∀ fm v, v ∈ (runRuleFrom style text fm items).2 → ∃ off s, v = report off s := by
  induction items with
  | nil =>
    intro fm v hv
    simp [runRuleFrom] at hv
  | cons n rest ih =>
    intro fm v hv
    simp only [runRuleFrom, List.mem_append] at hv
    rcases hv with hv | hv
    · by_cases hn : n.parentOrdered
      · rw [listItem_ordered _ _ _ _ hn] at hv
        simp at hv
      · have hn2 : n.parentOrdered = false := by simpa using hn
        rw [listItem_unordered _ _ _ _ hn2] at hv
        by_cases hc : charAtS text n.startOffset =
            (markerPolicy style fm (charAtS text n.startOffset) n.parentAncestors).2
        · rw [if_pos hc] at hv
          simp at hv
        · rw [if_neg hc] at hv
          simp at hv
          exact ⟨n.startOffset, _, hv⟩
    · exact ih _ v hv

theorem interpolate_styleMessage (val : List Char) :
    interpolate styleMessage.data val =
      ("List marker style should be `").data ++ val ++ ("`.").data := rfl

theorem det_idem (text : List Char) (items : List ListItem) (e : ListItem → Char)
    (hb : ∀ k ∈ items, k.parentOrdered = false → k.startOffset < text.length)
    (hp : (items.filter fun k => !k.parentOrdered).Pairwise
      fun a b => a.startOffset ≠ b.startOffset) :
    detViolations
      (applyFixes text (detViolations text (fun k => String.singleton (e k)) items))
      (fun k => String.singleton (e k)) items = [] :=
  detViolations_nil_of_matches _ _ _ fun n hn hord =>
    charAt_after_fixes text e items hb hp n hn hord

theorem fixed_style_idem (c : Char) (hs1 : String.singleton c ≠ "sublist")
    (hs2 : String.singleton c ≠ "consistent") (text : List Char) (items : List ListItem)
    (hb : ∀ k ∈ items, k.parentOrdered = false → k.startOffset < text.length)
    (hp : (items.filter fun k => !k.parentOrdered).Pairwise
      fun a b => a.startOffset ≠ b.startOffset) :
    (runRule (String.singleton c)
      (applyFixes text (runRule (String.singleton c) text items).2) items).2 = [] := by
  have h1 : ∀ t : List Char, runRule (String.singleton c) t items =
      (initFirstMarker (String.singleton c),
        detViolations t (fun _ => String.singleton c) items) := by
    intro t
    rw [runRule]
    exact run_else _ hs1 hs2 _ _ _
  rw [h1, h1]
  exact det_idem text items (fun _ => c) hb hp

/-! Theorems for the claims. -/

/-- C1: for style `consistent`, the first unordered list item visited in the
run is never reported, its observed marker becomes the locked marker, and
every later unordered item is compared against that locked value: the run
over `pre ++ n :: post` (with `pre` all ordered and `n` the first unordered
item) locks `charAtS text n.startOffset` and reports exactly those unordered
items of `post` whose observed marker differs from it, with that locked
marker as the expected one. -/
theorem consistent_first_item_locks (text : List Char) (pre : List ListItem)
    (n : ListItem) (post : List ListItem)
    (hpre : ∀ p ∈ pre, p.parentOrdered = true) (hn : n.parentOrdered = false) :
    runRule "consistent" text (pre ++ n :: post) =
      (some (charAtS text n.startOffset),
        detViolations text (fun _ => charAtS text n.startOffset) post) := by
  rw [runRule, show initFirstMarker "consistent" = none by decide]
  exact run_consistent_first text pre n post hpre hn

/-- C2: for style `sublist`, the expected marker of an unordered item whose
enclosing list has depth `d` is `SUBLIST_MARKERS[d % 3]` with the cycle
`*`, `+`, `-`, `*` again; the run result is a per-node function of depth,
independent of the threaded marker history and stable under permutation of
the visit order. -/
theorem sublist_policy_depth_only :
    (∀ (text : List Char) (fm : Option String) (items : List ListItem),
      runRuleFrom "sublist" text fm items =
        (fm, detViolations text
          (fun n => getSublistMarker (getListDepth n.parentAncestors)) items)) ∧
    getSublistMarker 0 = "*" ∧ getSublistMarker 1 = "+" ∧ getSublistMarker 2 = "-" ∧
    getSublistMarker 3 = "*" ∧
    (∀ d, getSublistMarker d = SUBLIST_MARKERS.getD (d % 3) "*") ∧
    (∀ (text : List Char) (fm : Option String) (items₁ items₂ : List ListItem),
      items₁.Perm items₂ →
        ((runRuleFrom "sublist" text fm items₁).2).Perm
          ((runRuleFrom "sublist" text fm items₂).2)) := by
  refine ⟨fun text fm items => run_sublist text fm items, by decide, by decide, by decide,
    by decide, fun d => rfl, fun text fm items₁ items₂ hperm => ?_⟩
  rw [run_sublist, run_sublist]
  exact List.Perm.filterMap _ hperm

/-- C3: for a fixed style `-`, `*` or `+`, the expected marker of every
unordered item is the configured literal, whatever the threaded state and
the nesting depth, and a violation is reported exactly when the observed
marker differs from it. -/
theorem fixed_style_policy (style : String)
    (hs : style = "-" ∨ style = "*" ∨ style = "+") (text : List Char)
    (fm : Option String) (items : List ListItem) :
    runRuleFrom style text fm items =
      (fm, detViolations text (fun _ => style) items) := by
  rcases hs with h | h | h <;> subst h <;>
    exact run_else _ (by decide) (by decide) _ _ _

/-- C4: a list item whose parent list is ordered is skipped before any
policy logic: the handler leaves the run state unchanged and emits no
violation, and removing such an item from the visited stream does not
change the run at all. -/
theorem ordered_items_skipped (style : String) (text : List Char) (fm : Option String)
    (n : ListItem) (h : n.parentOrdered = true) :
    listItem style text n fm = (fm, none) ∧
      ∀ (pre post : List ListItem),
        runRuleFrom style text fm (pre ++ n :: post) =
          runRuleFrom style text fm (pre ++ post) :=
  ⟨listItem_ordered _ _ _ _ h, fun pre post => run_middle_ordered _ _ _ h pre fm post⟩

/-- C5: `getListDepth` counts exactly the ancestors that are unordered
lists: the empty chain has depth 0, an unordered-list ancestor adds one,
ordered-list and non-list ancestors add nothing and do not stop the walk,
and in general the depth is the count of unordered-list nodes in the
ancestor chain. -/
theorem depth_counts_unordered_ancestors :
    getListDepth [] = 0 ∧
    (∀ rest, getListDepth (NodeInfo.list false :: rest) = getListDepth rest + 1) ∧
    (∀ rest, getListDepth (NodeInfo.list true :: rest) = getListDepth rest) ∧
    (∀ rest, getListDepth (NodeInfo.other :: rest) = getListDepth rest) ∧
    (∀ chain, getListDepth chain =
      chain.countP fun a => decide (a = NodeInfo.list false)) := by
  refine ⟨rfl, fun rest => by simp [getListDepth, Nat.add_comm],
    fun rest => by simp [getListDepth], fun rest => by simp [getListDepth],
    fun chain => ?_⟩
  induction chain with
  | nil => rfl
  | cons a rest ih =>
    by_cases ha : a = NodeInfo.list false <;>
      simp [getListDepth, List.countP_cons, ha, ih, Nat.add_comm]

/-- C6: for every configured style and every well-formed document (each
unordered item's marker offset is inside the text and distinct items have
distinct marker offsets), applying every emitted fix and re-running the
check on the fixed text yields zero violations. -/
theorem fix_all_idempotent (style : String) (text : List Char) (items : List ListItem)
    (hstyle : style ∈ validStyles)
    (hb : ∀ k ∈ items, k.parentOrdered = false → k.startOffset < text.length)
    (hp : (items.filter fun k => !k.parentOrdered).Pairwise
      fun a b => a.startOffset ≠ b.startOffset) :
    (runRule style (applyFixes text (runRule style text items).2) items).2 = [] := by
  have hmem : style = "consistent" ∨ style = "-" ∨ style = "*" ∨ style = "+" ∨
      style = "sublist" := by
    simpa [validStyles] using hstyle
  rcases hmem with h | h | h | h | h
  · subst h
    by_cases hall : ∀ k ∈ items, k.parentOrdered = true
    · have h1 : runRule "consistent" text items = (none, []) := by
        rw [runRule, show initFirstMarker "consistent" = none by decide]
        exact run_all_ordered _ _ _ _ hall
      rw [h1]
      show (runRule "consistent" (applyFixes text []) items).2 = []
      rw [show applyFixes text [] = text from rfl, h1]
    · obtain ⟨pre, n1, post, hdec, hpre, hn1⟩ := exists_first_unordered items hall
      subst hdec
      have hrun : ∀ t : List Char, runRule "consistent" t (pre ++ n1 :: post) =
          (some (charAtS t n1.startOffset),
            detViolations t (fun _ => charAtS t n1.startOffset) post) := by
        intro t
        rw [runRule, show initFirstMarker "consistent" = none by decide]
        exact run_consistent_first t pre n1 post hpre hn1
      have hb_post : ∀ k ∈ post, k.parentOrdered = false → k.startOffset < text.length :=
        fun k hk => hb k (by simp [hk])
      have hfilter : (pre ++ n1 :: post).filter (fun k => !k.parentOrdered) =
          ((pre.filter fun k => !k.parentOrdered) ++
            n1 :: (post.filter fun k => !k.parentOrdered)) := by
        simp [List.filter_append, List.filter_cons, hn1]
      rw [hfilter, List.pairwise_append] at hp
      obtain ⟨-, hp2, -⟩ := hp
      rw [List.pairwise_cons] at hp2
      obtain ⟨hsep0, hp_post⟩ := hp2
      have hsep : ∀ k ∈ post.filter (fun k => !k.parentOrdered),
          k.startOffset ≠ n1.startOffset := fun k hk => (hsep0 k hk).symm
      have hshape := detViolations_fix_shape text
        (fun _ => charAt text n1.startOffset) post hb_post
      have hfix2 : (runRule "consistent" text (pre ++ n1 :: post)).2 =
          detViolations text
            (fun _ => String.singleton (charAt text n1.startOffset)) post := by
        rw [hrun text]
        rfl
      rw [hfix2]
      have hA : charAt (applyFixes text (detViolations text
          (fun _ => String.singleton (charAt text n1.startOffset)) post)) n1.startOffset =
          charAt text n1.startOffset := by
        rw [applyFixes_eq_setWrites _ _ hshape, map_toWrite_detViolations]
        apply charAt_setWrites_notin
        intro w hw
        obtain ⟨k, hk, hfk⟩ := List.mem_filterMap.1 hw
        by_cases hc : charAtS text k.startOffset =
            String.singleton (charAt text n1.startOffset)
        · rw [if_neg (not_not_intro hc)] at hfk
          exact absurd hfk (by simp)
        · rw [if_pos hc] at hfk
          rw [← Option.some.inj hfk]
          exact hsep k hk
      have hgoal : detViolations
          (applyFixes text (detViolations text
            (fun _ => String.singleton (charAt text n1.startOffset)) post))
          (fun _ => String.singleton (charAt text n1.startOffset)) post = [] := by
        apply detViolations_nil_of_matches
        intro k hk hordk
        exact charAt_after_fixes text (fun _ => charAt text n1.startOffset) post
          hb_post hp_post k hk hordk
      rw [hrun _]
      simp only [charAtS_eq, hA]
      exact hgoal
  · subst h
    rw [show ("-" : String) = String.singleton ('-') by decide]
    exact fixed_style_idem ('-') (by decide) (by decide) text items hb hp
  · subst h
    rw [show ("*" : String) = String.singleton ('*') by decide]
    exact fixed_style_idem ('*') (by decide) (by decide) text items hb hp
  · subst h
    rw [show ("+" : String) = String.singleton ('+') by decide]
    exact fixed_style_idem ('+') (by decide) (by decide) text items hb hp
  · subst h
    have h1 : ∀ t : List Char, runRule "sublist" t items =
        (initFirstMarker "sublist",
          detViolations t
            (fun n => getSublistMarker (getListDepth n.parentAncestors)) items) := by
      intro t
      rw [runRule]
      exact run_sublist _ _ _
    rw [h1, h1]
    simp only [getSublistMarker_singleton]
    exact det_idem text items (fun n => sublistChar (getListDepth n.parentAncestors)) hb hp

/-- C7: for every visited unordered list item, no violation is produced when
the observed one-character marker equals the policy's expected marker, and
exactly one violation is produced when it differs; that violation's location
and fix range are the single character at the item's start offset and its fix
replaces that range with the expected marker. -/
theorem report_fix_contract (style : String) (text : List Char) (fm : Option String)
    (n : ListItem) (h : n.parentOrdered = false) :
    (charAtS text n.startOffset = expectedMarkerOf style text fm n →
      (listItem style text n fm).2 = none) ∧
    (charAtS text n.startOffset ≠ expectedMarkerOf style text fm n →
      (listItem style text n fm).2 =
        some (report n.startOffset (expectedMarkerOf style text fm n))) ∧
    (∀ v, (listItem style text n fm).2 = some v →
      v.fixRangeStart = n.startOffset ∧ v.fixRangeEnd = n.startOffset + 1 ∧
        v.fixText = expectedMarkerOf style text fm n ∧
        v.locStart = n.startOffset ∧ v.locEnd = n.startOffset + 1) := by
  rw [listItem_unordered _ _ _ _ h]
  simp only [expectedMarkerOf]
  by_cases hc : charAtS text n.startOffset =
      (markerPolicy style fm (charAtS text n.startOffset) n.parentAncestors).2
  · rw [if_pos hc]
    exact ⟨fun _ => rfl, fun hne => absurd hc hne, fun v hv => by cases hv⟩
  · rw [if_neg hc]
    refine ⟨fun he => absurd he hc, fun _ => rfl, fun v hv => ?_⟩
    obtain rfl := Option.some.inj hv
    exact ⟨rfl, rfl, rfl, rfl, rfl⟩

/-- C8 is refuted as stated: the run state is not created null/unset for
every configured style; for the valid fixed style `-` it is created already
holding the configured style value. -/
theorem runState_init_counterexample :
    "-" ∈ validStyles ∧ initFirstMarker "-" = some "-" ∧
      ¬ initFirstMarker "-" = none := by
  decide

/-- C8 (amended): the run state is created unset when the style is
`consistent` and holding the style value otherwise; runs under a
non-`consistent` style never mutate it; under `consistent` the single write
happens on the first unordered item (locking its observed marker), and once
the state holds a value every later read returns that value unchanged while
the expected marker of every subsequent unordered item is that locked value.
No value carries over between runs, since every run starts from
`initFirstMarker`. -/
theorem runState_lifecycle :
    initFirstMarker "consistent" = none ∧
    (∀ style, style ≠ "consistent" → initFirstMarker style = some style) ∧
    (∀ style, style ≠ "consistent" → ∀ (text : List Char) (fm : Option String)
      (items : List ListItem), (runRuleFrom style text fm items).1 = fm) ∧
    (∀ (text : List Char) (n : ListItem), n.parentOrdered = false →
      (listItem "consistent" text n none).1 = some (charAtS text n.startOffset)) ∧
    (∀ (text : List Char) (m : String) (items : List ListItem),
      runRuleFrom "consistent" text (some m) items =
        (some m, detViolations text (fun _ => m) items)) := by
  refine ⟨by decide, fun style h => ?_,
    fun style h text fm items => run_state_const_of_ne style h text items fm,
    fun text n hn => ?_, fun text m items => run_consistent_locked text m items⟩
  · rw [initFirstMarker, if_neg h]
  · rw [listItem_unordered _ _ _ _ hn]
    rfl

/-- C9: every violation a run emits carries the message id `style`, a
location spanning exactly one character, a fix range spanning exactly one
character, and a message that renders, after substituting the reported
expected marker into the registered template, to the text
`List marker style should be` followed by the expected marker wrapped in
backticks and a final period. -/
theorem violation_message_format (style : String) (text : List Char) (fm : Option String)
    (items : List ListItem) :
    ∀ v ∈ (runRuleFrom style text fm items).2,
      v.messageId = "style" ∧ v.locEnd = v.locStart + 1 ∧
        v.fixRangeEnd = v.fixRangeStart + 1 ∧
        interpolate styleMessage.data v.dataStyle.data =
          ("List marker style should be `").data ++ v.dataStyle.data ++ ("`.").data := by
  intro v hv
  obtain ⟨off, s, rfl⟩ := mem_run_shape style text items fm v hv
  exact ⟨rfl, rfl, rfl, interpolate_styleMessage _⟩

/-- C10: the observed marker is the raw character at the item's start
offset with no validation: under style `consistent`, whatever character `c`
(marker or not) the first unordered item starts with becomes the locked
expected marker, and each subsequent unordered item is flagged exactly when
its observed character differs from `c`, with `c` reported as expected. -/
theorem marker_taken_verbatim (text : List Char) (c : Char) (pre : List ListItem)
    (n : ListItem) (post : List ListItem)
    (hpre : ∀ p ∈ pre, p.parentOrdered = true) (hn : n.parentOrdered = false)
    (hc : charAt text n.startOffset = c) :
    runRule "consistent" text (pre ++ n :: post) =
      (some (String.singleton c),
        detViolations text (fun _ => String.singleton c) post) := by
  rw [runRule, show initFirstMarker "consistent" = none by decide,
    run_consistent_first text pre n post hpre hn, charAtS_eq, hc]

/-! Witnesses: each applies the corresponding theorem at a concrete input. -/

theorem consistent_first_item_locks_witness :
    ((∀ p ∈ ([⟨true, [], 0⟩] : List ListItem), p.parentOrdered = true) ∧
      (⟨false, [], 5⟩ : ListItem).parentOrdered = false) ∧
    runRule "consistent" ("1. x\n- a\n* b").data
        ([⟨true, [], 0⟩] ++ (⟨false, [], 5⟩ : ListItem) :: [⟨false, [], 9⟩]) =
      (some (charAtS ("1. x\n- a\n* b").data 5),
        detViolations ("1. x\n- a\n* b").data
          (fun _ => charAtS ("1. x\n- a\n* b").data 5) [⟨false, [], 9⟩]) :=
  ⟨⟨by decide, by decide⟩,
    consistent_first_item_locks _ _ _ _ (by decide) (by decide)⟩

theorem sublist_policy_depth_only_witness :
    ([(⟨false, [], 0⟩ : ListItem), ⟨false, [NodeInfo.list false], 6⟩] : List ListItem).Perm
        [⟨false, [NodeInfo.list false], 6⟩, ⟨false, [], 0⟩] ∧
    ((runRuleFrom "sublist" ("* a\n  * b").data none
        [(⟨false, [], 0⟩ : ListItem), ⟨false, [NodeInfo.list false], 6⟩]).2).Perm
      ((runRuleFrom "sublist" ("* a\n  * b").data none
        [⟨false, [NodeInfo.list false], 6⟩, ⟨false, [], 0⟩]).2) :=
  ⟨by decide, sublist_policy_depth_only.2.2.2.2.2.2 _ _ _ _ (by decide)⟩

theorem fixed_style_policy_witness :
    (("-" : String) = "-" ∨ ("-" : String) = "*" ∨ ("-" : String) = "+") ∧
    runRuleFrom "-" ("* a\n- b").data (some "-")
        [(⟨false, [], 0⟩ : ListItem), ⟨false, [], 4⟩] =
      (some "-", detViolations ("* a\n- b").data (fun _ => "-")
        [(⟨false, [], 0⟩ : ListItem), ⟨false, [], 4⟩]) :=
  ⟨by decide, fixed_style_policy "-" (by decide) _ _ _⟩

theorem ordered_items_skipped_witness :
    (⟨true, [], 0⟩ : ListItem).parentOrdered = true ∧
    listItem "consistent" ("1. a\n- b").data ⟨true, [], 0⟩ none = (none, none) ∧
    runRuleFrom "consistent" ("1. a\n- b").data none
        ([] ++ (⟨true, [], 0⟩ : ListItem) :: [⟨false, [], 5⟩]) =
      runRuleFrom "consistent" ("1. a\n- b").data none ([] ++ [⟨false, [], 5⟩]) :=
  ⟨by decide,
    (ordered_items_skipped "consistent" ("1. a\n- b").data none _ (by decide)).1,
    (ordered_items_skipped "consistent" ("1. a\n- b").data none _ (by decide)).2
      [] [⟨false, [], 5⟩]⟩

theorem fix_all_idempotent_witness :
    (("consistent" : String) ∈ validStyles ∧
      (∀ k ∈ ([(⟨false, [], 0⟩ : ListItem), ⟨false, [], 4⟩] : List ListItem),
        k.parentOrdered = false → k.startOffset < (("- a\n* b").data).length) ∧
      (([(⟨false, [], 0⟩ : ListItem), ⟨false, [], 4⟩] : List ListItem).filter
        (fun k => !k.parentOrdered)).Pairwise fun a b => a.startOffset ≠ b.startOffset) ∧
    (runRule "consistent"
        (applyFixes ("- a\n* b").data
          (runRule "consistent" ("- a\n* b").data
            [(⟨false, [], 0⟩ : ListItem), ⟨false, [], 4⟩]).2)
        [(⟨false, [], 0⟩ : ListItem), ⟨false, [], 4⟩]).2 = [] :=
  ⟨⟨by decide, by decide, by decide⟩,
    fix_all_idempotent "consistent" _ _ (by decide) (by decide) (by decide)⟩

theorem report_fix_contract_witness :
    (⟨false, [], 4⟩ : ListItem).parentOrdered = false ∧
    ((charAtS ("- a\n* b").data 4 = "-" →
        (listItem "consistent" ("- a\n* b").data ⟨false, [], 4⟩ (some "-")).2 = none) ∧
      (charAtS ("- a\n* b").data 4 ≠ "-" →
        (listItem "consistent" ("- a\n* b").data ⟨false, [], 4⟩ (some "-")).2 =
          some (report 4 "-")) ∧
      (∀ v, (listItem "consistent" ("- a\n* b").data ⟨false, [], 4⟩ (some "-")).2 =
          some v →
        v.fixRangeStart = 4 ∧ v.fixRangeEnd = 4 + 1 ∧ v.fixText = "-" ∧
          v.locStart = 4 ∧ v.locEnd = 4 + 1)) :=
  ⟨by decide,
    report_fix_contract "consistent" (("- a\n* b").data) (some "-") ⟨false, [], 4⟩
      (by decide)⟩

theorem runState_lifecycle_witness :
    (("sublist" : String) ≠ "consistent" ∧
      (⟨false, [], 0⟩ : ListItem).parentOrdered = false) ∧
    (initFirstMarker "sublist" = some "sublist" ∧
      (runRuleFrom "sublist" ("- a").data (some "x")
        [(⟨false, [], 0⟩ : ListItem)]).1 = some "x" ∧
      (listItem "consistent" ("- a").data ⟨false, [], 0⟩ none).1 =
        some (charAtS ("- a").data 0) ∧
      runRuleFrom "consistent" ("- a").data (some "*")
          [(⟨false, [], 0⟩ : ListItem)] =
        (some "*",
          detViolations ("- a").data (fun _ => "*") [(⟨false, [], 0⟩ : ListItem)])) :=
  ⟨⟨by decide, by decide⟩,
    runState_lifecycle.2.1 "sublist" (by decide),
    runState_lifecycle.2.2.1 "sublist" (by decide) _ _ _,
    runState_lifecycle.2.2.2.1 _ _ (by decide),
    runState_lifecycle.2.2.2.2 _ _ _⟩

theorem violation_message_format_witness :
    report 4 "-" ∈ (runRuleFrom "consistent" ("- a\n* b").data none
        [(⟨false, [], 0⟩ : ListItem), ⟨false, [], 4⟩]).2 ∧
    ((report 4 "-").messageId = "style" ∧
      (report 4 "-").locEnd = (report 4 "-").locStart + 1 ∧
      (report 4 "-").fixRangeEnd = (report 4 "-").fixRangeStart + 1 ∧
      interpolate styleMessage.data ((report 4 "-").dataStyle).data =
        ("List marker style should be `").data ++ ((report 4 "-").dataStyle).data ++
          ("`.").data) :=
  ⟨by decide,
    violation_message_format "consistent" (("- a\n* b").data) none
      [(⟨false, [], 0⟩ : ListItem), ⟨false, [], 4⟩] (report 4 "-") (by decide)⟩

theorem marker_taken_verbatim_witness :
    ((∀ p ∈ ([] : List ListItem), p.parentOrdered = true) ∧
      (⟨false, [], 0⟩ : ListItem).parentOrdered = false ∧
      charAt ("x a\n- b").data 0 = ('x' : Char)) ∧
    runRule "consistent" ("x a\n- b").data
        ([] ++ (⟨false, [], 0⟩ : ListItem) :: [⟨false, [], 4⟩]) =
      (some (String.singleton ('x')),
        detViolations ("x a\n- b").data (fun _ => String.singleton ('x'))
          [⟨false, [], 4⟩]) :=
  ⟨⟨by decide, by decide, by decide⟩,
    marker_taken_verbatim _ ('x') _ _ _ (by decide) (by decide) (by decide)⟩

end ConsistentUnorderedListStyle
